import Mathlib

/-!
Verification development for the `fw` OpenAPI-3-to-Kong converter.

The definitions below are a shallow embedding of the Go sources:
  - `kong/service.go` (URI defaulting, service/upstream factory), and
  - the `convertoas3` converter (`Convert`, `getPluginsList`, `insertPlugin`,
    `generateValidatorPlugin`, `generateParameterSchema`, the path rewriter).

Machine integers appear only in the service-port computation, where Go's
`strconv.ParseInt(s, 10, 16)` is modelled explicitly with its int16 clamping.
External collaborators (the UUIDv5 library, JSON (de)serialization, the OAS
parser) are modelled by their observable behaviour on the data the core reads.
-/

namespace Fw

/-- Boolean prefix test on lists: `begWith pat s` is true iff `pat` is a
prefix of `s`.  Used to model `strings.Replace` and `strings.Contains`. -/
def begWith [DecidableEq α] : List α → List α → Bool
  | [], _ => true
  | _ :: _, [] => false
  | a :: as, b :: bs => a = b && begWith as bs

/-- Boolean substring test: `hasSub pat s` is true iff `pat` occurs
contiguously in `s`.  Models Go's `strings.Contains(s, pat)`. -/
def hasSub (pat : List Char) : List Char → Bool
  | [] => pat.isEmpty
  | c :: rest => begWith pat (c :: rest) || hasSub pat rest

/-!
## URI model (`net/url.URL` as used by `kong/service.go`)

Go's `url.URL.Host` is the hostname followed by an optional `":" + port`;
`Port()` extracts the port part or returns `""`.  We keep the hostname and
the port separate and derive the `Host` string.
-/

/-- A parsed server URI: scheme, hostname, optional port, and path. -/
structure URL where
  scheme : String
  hostname : String
  port : Option String
  path : String
deriving DecidableEq, Repr

/-- Go's `url.Host`: hostname plus optional `":port"` suffix. -/
def URL.hostStr (u : URL) : String :=
  match u.port with
  | none => u.hostname
  | some p => u.hostname ++ ":" ++ p

/-- Go's `url.Port()`: the port string, or `""` when absent. -/
def URL.portStr (u : URL) : String := u.port.getD ""

/-- Embedding of `setServerDefaults` (kong/service.go, lines 47-79) acting on
a single target.  The Go function mutates each `*url.URL` in place; here the
updated URL is returned.  Steps, in source order: default the host to
`localhost` when `Host` is empty; infer a missing scheme from the port
(80 to http, 443 to https, otherwise the supplied default); append `:80` or
`:443` to the host when the port is missing and the scheme is http or https. -/
def setServerDefaults1 (schemeDefault : String) (u0 : URL) : URL :=
  -- set the hostname if unset
  let u1 := if u0.hostStr = "" then { u0 with hostname := "localhost" } else u0
  -- set the scheme if unset, detecting it from the port
  let u2 :=
    if u1.scheme = "" then
      { u1 with scheme :=
          if u1.portStr = "80" then "http"
          else if u1.portStr = "443" then "https"
          else schemeDefault }
    else u1
  -- set the port if unset (but a host is given); two successive `if`s in Go
  if u2.hostStr ≠ "" ∧ u2.portStr = "" then
    let u3 := if u2.scheme = "http" then { u2 with port := some "80" } else u2
    if u3.scheme = "https" then { u3 with port := some "443" } else u3
  else u2

/-- Embedding of `setServerDefaults` over the whole target list. -/
def setServerDefaults (schemeDefault : String) (targets : List URL) : List URL :=
  targets.map (setServerDefaults1 schemeDefault)

/-- The defaulting rules exactly as the specification states them (§4.3,
claim C6): host absent means `localhost`; scheme absent is inferred from the
port, 80 to http and 443 to https, else the supplied default; port absent
appends 80 for http and 443 for https.  Written independently of the code
for comparison with `setServerDefaults1`. -/
def specServerDefaults1 (schemeDefault : String) (u : URL) : URL :=
  let host := if u.hostStr = "" then "localhost" else u.hostname
  let scheme :=
    if u.scheme = "" then
      if u.portStr = "80" then "http"
      else if u.portStr = "443" then "https"
      else schemeDefault
    else u.scheme
  let port :=
    if u.portStr = "" then
      if scheme = "http" then some "80"
      else if scheme = "https" then some "443"
      else u.port
    else u.port
  { scheme := scheme, hostname := host, port := port, path := u.path }

/-!
## Service port computation (`CreateKongService`, kong/service.go 168-180)
-/

/-- Decimal value of a string of digits, most significant first; the fold is
the accumulation `strconv` performs while scanning. -/
def decVal (s : String) : Nat :=
  s.data.foldl (fun n c => n * 10 + (c.toNat - 48)) 0

/-- True iff the string is a non-empty run of ASCII digits. -/
def isDigits (s : String) : Bool :=
  !s.data.isEmpty && s.data.all (fun c => decide ('0' ≤ c) && decide (c ≤ '9'))

/-- Model of `strconv.ParseInt(s, 10, 16)` with the returned error discarded,
as in `service["port"], _ = strconv.ParseInt(...)`: a malformed string gives
0 (the value ParseInt returns alongside ErrSyntax), and a value above the
int16 maximum is clamped to 32767 (the value returned alongside ErrRange).
URL port strings are always plain digit runs, so no sign handling is needed. -/
def goParseInt16 (s : String) : Int :=
  if isDigits s then
    if decVal s ≤ 32767 then (decVal s : Int) else 32767
  else 0

/-- The service port emitted by `CreateKongService` (lines 170-180): the
parsed port when the first target carries one, otherwise 443 unless the
scheme is exactly `http`, in which case 80. -/
def servicePort (target : URL) : Int :=
  if target.portStr ≠ "" then goParseInt16 target.portStr
  else if target.scheme ≠ "http" then 443 else 80

/-- The service fields `CreateKongService` takes from the first resolved
target (lines 168-180): `protocol`, `path` and `port`. -/
structure ServiceMainFields where
  protocol : String
  path : String
  port : Int
deriving DecidableEq, Repr

/-- Embedding of lines 168-180 of `CreateKongService`. -/
def serviceFieldsFromTarget (t : URL) : ServiceMainFields :=
  { protocol := t.scheme, path := t.path, port := servicePort t }

/-- First resolved target used by the claim C7 counterexample: an explicit
non-http, non-https scheme with no port. -/
def c7Target : URL := { scheme := "grpc", hostname := "example.com", port := none, path := "/v1" }

/-!
## Scope inheritance and upstream emission (`Convert`, part_002)

`Convert` walks document, path and operation scopes.  At the document scope
it always calls `CreateKongService` and appends the returned upstream when
there is one.  At the path and operation scopes it tracks `newPathService` /
`newOperationService` and `newUpstream` flags (part_002 lines 734-806 and
862-922): a new service is required when the scope locally declares
service-defaults, upstream-defaults, or a non-empty servers block; a new
upstream is required when it locally declares upstream-defaults or a
non-empty servers block.  When a new service is created and the factory
returns an upstream, the upstream is appended to the output only when
`newUpstream` is set; otherwise it is discarded and the service's host is
pointed at the parent's host.
-/

/-- Number of targets `parseServerUris` yields (kong/service.go 16-43): one
default `/` target for an empty or absent servers block, else one per server. -/
def numTargets (servers : List String) : Nat :=
  if servers.isEmpty then 1 else servers.length

/-- The upstream decision inside `CreateKongService` (kong/service.go
182-195): a simple service (no upstream) iff there is exactly one target and
no upstream defaults; otherwise `createKongUpstream` is called. -/
def factoryMakesUpstream (upstreamDefaults : Option String) (servers : List String) : Bool :=
  !(numTargets servers == 1 && upstreamDefaults.isNone)

/-- Whether the document scope appends an upstream to the output
(part_002 lines 686-693): exactly when `CreateKongService` returns one. -/
def docScopeEmitsUpstream (upstreamDefaults : Option String) (servers : List String) : Bool :=
  factoryMakesUpstream upstreamDefaults servers

/-- The `x-kong-*` extensions a path or operation scope declares locally:
optional service-defaults and upstream-defaults (JSON strings) and a servers
block (empty list when not declared). -/
structure ScopeExts where
  serviceDefaults : Option String := none
  upstreamDefaults : Option String := none
  servers : List String := []
deriving DecidableEq, Repr

/-- The effective inherited context a child scope starts from: the parent's
effective upstream-defaults and servers block. -/
structure ParentCtx where
  upstreamDefaults : Option String := none
  servers : List String := []
deriving DecidableEq, Repr

/-- Outcome of processing one child scope (path or operation). -/
structure ChildScopeOutcome where
  newService : Bool
  newUpstream : Bool
  effUpstreamDefaults : Option String
  effServers : List String
  upstreamEmitted : Bool
deriving DecidableEq, Repr

/-- Embedding of the path-scope (part_002 lines 734-806) and operation-scope
(lines 862-922) upstream handling, which are per-scope copies of the same
logic.  The local declarations replace the inherited ones and raise the
`newService` / `newUpstream` flags; the factory is consulted with the
effective context; the upstream is emitted only when a new service was
created, the factory produced an upstream, and `newUpstream` is set. -/
def childScopeStep (parent : ParentCtx) (loc : ScopeExts) : ChildScopeOutcome :=
  -- local service-defaults: newService
  let newService1 := loc.serviceDefaults.isSome
  -- local upstream-defaults: newUpstream and newService, inherited otherwise
  let newUpstream1 := loc.upstreamDefaults.isSome
  let effUp := if loc.upstreamDefaults.isSome then loc.upstreamDefaults else parent.upstreamDefaults
  -- local non-empty servers block: newUpstream and newService, inherited otherwise
  let newUpstream := newUpstream1 || !loc.servers.isEmpty
  let newService := newService1 || newUpstream1 || !loc.servers.isEmpty
  let effServers := if loc.servers.isEmpty then parent.servers else loc.servers
  { newService := newService
    newUpstream := newUpstream
    effUpstreamDefaults := effUp
    effServers := effServers
    upstreamEmitted := newService && (factoryMakesUpstream effUp effServers && newUpstream) }

/-- Parent context of the claim C1 counterexample: the document declared
upstream-defaults and a single server. -/
def c1Parent : ParentCtx := { upstreamDefaults := some "x", servers := ["https://a.example"] }

/-- Local declarations of the claim C1 counterexample: the path declares only
a one-entry servers block. -/
def c1Loc : ScopeExts := { servers := ["https://b.example"] }

/-!
## Plugin aggregation (`getPluginsList`, part_002 lines 237-314)

A plugin config is a JSON object; the core reads its `name`, rewrites its
`id` and `tags`, and treats the rest as opaque payload.  Go string order is
byte-wise lexicographic; for the ASCII plugin names involved this coincides
with the codepoint-wise order `strLt` below.
-/

/-- Byte-wise lexicographic strict order on char lists (Go's `<` on strings,
restricted to the ASCII names the converter compares). -/
def lexLt : List Char → List Char → Bool
  | [], [] => false
  | [], _ :: _ => true
  | _ :: _, [] => false
  | a :: as, b :: bs => a.toNat < b.toNat || (a = b && lexLt as bs)

/-- Go's `<` on strings. -/
def strLt (a b : String) : Bool := lexLt a.data b.data

/-- Go's `<=` on strings, used by `sort.Strings`. -/
def strLe (a b : String) : Bool := strLt a b || a = b

/-- A plugin config as the converter sees it: its `name`, the rewritten `id`
and `tags`, and the rest of the JSON object as opaque payload. -/
structure Plugin where
  name : String
  id : String := ""
  tags : List String := []
  payload : String := ""
deriving DecidableEq, Repr

/-- Model of `createPluginId` (part_002 lines 228-232): the UUIDv5 library is
an external collaborator, so the id is modelled by the exact name string the
library hashes, `baseName + ".plugin." + pluginName`. -/
def pluginUuid (baseName pluginName : String) : String :=
  baseName ++ ".plugin." ++ pluginName

/-- Insert-or-replace keyed by plugin name: the Go `plugins` map assigns
`plugins[pluginName] = config`, replacing any entry with the same name. -/
def upsertPlugin (acc : List Plugin) (p : Plugin) : List Plugin :=
  if acc.any (fun q => q.name = p.name) then
    acc.map (fun q => if q.name = p.name then p else q)
  else acc ++ [p]

/-- Sorted insertion by plugin name, ascending. -/
def insertByName (p : Plugin) : List Plugin → List Plugin
  | [] => [p]
  | q :: rest => if strLe p.name q.name then p :: q :: rest else q :: insertByName p rest

/-- Model of the final sorting step of `getPluginsList` (lines 300-313): the
Go code sorts the map keys with `sort.Strings` and reads the map back in key
order; an insertion sort by name over the entries has the same result. -/
def sortPluginsByName : List Plugin → List Plugin
  | [] => []
  | p :: rest => insertByName p (sortPluginsByName rest)

/-- One `x-kong-plugin-<slug>` extension on a scope: the slug from the
extension key, the optional `name` field of its JSON body, and the rest of
the body as opaque payload. -/
structure ExtPlugin where
  slug : String
  givenName : Option String := none
  payload : String := ""
deriving DecidableEq, Repr

/-- The extension loop of `getPluginsList` (lines 266-298): each
`x-kong-plugin-` extension is parsed; a `name` field different from the slug
is an error; the entry gets a fresh id and the current tags and is stored in
the map keyed by its name.  Extension keys are distinct, so the iteration
order of the Go map does not affect the result. -/
def pluginsFromExts (baseName : String) (tags : List String) :
    List ExtPlugin → List Plugin → Except String (List Plugin)
  | [], acc => .ok acc
  | e :: rest, acc =>
    match e.givenName with
    | none =>
      pluginsFromExts baseName tags rest
        (upsertPlugin acc
          { name := e.slug, id := pluginUuid baseName e.slug, tags := tags, payload := e.payload })
    | some n =>
      if n = e.slug then
        pluginsFromExts baseName tags rest
          (upsertPlugin acc
            { name := n, id := pluginUuid baseName n, tags := tags, payload := e.payload })
      else
        .error ("extension 'x-kong-plugin-" ++ e.slug ++
          "' specifies a different name than the config; '" ++ e.slug ++ "'")

/-- Embedding of `getPluginsList` (part_002 lines 237-314).  The inherited
list (`pluginsToInclude`, a nil-able pointer in Go, hence `Option`) is
deep-copied with a fresh id from the new base name and the current tags;
local `x-kong-plugin-*` extensions are merged over it keyed by name; the
result is sorted ascending by plugin name. -/
def getPluginsList (exts : List ExtPlugin) (pluginsToInclude : Option (List Plugin))
    (baseName : String) (tags : List String) : Except String (List Plugin) :=
  let start := (pluginsToInclude.getD []).foldl
    (fun acc c => upsertPlugin acc { c with id := pluginUuid baseName c.name, tags := tags }) []
  match pluginsFromExts baseName tags exts start with
  | .error e => .error e
  | .ok plugins => .ok (sortPluginsByName plugins)

/-- Embedding of the operation-scope plugin merge of `Convert` (part_002
lines 930-947).  In the `newOperationService` branch the document-level and
path-level `getPluginsList` calls discard their error (`operationPluginList,
_ = getPluginsList(...)`); a failed call leaves a nil list, which the next
call treats as an absent inherited list. -/
def operationPluginsCode (newOperationService newPathService : Bool)
    (docExts pathExts opExts : List ExtPlugin) (pathPlugins : Option (List Plugin))
    (opBase : String) (tags : List String) : Except String (List Plugin) :=
  if !newOperationService && !newPathService then
    getPluginsList opExts pathPlugins opBase tags
  else if newOperationService then
    let l1 := (getPluginsList docExts none opBase tags).toOption
    let l2 := (getPluginsList pathExts l1 opBase tags).toOption
    getPluginsList opExts l2 opBase tags
  else
    getPluginsList opExts none opBase tags

/-!
## Go slices and `insertPlugin` (part_002 lines 566-588)

`insertPlugin` manipulates the plugin slice with Go's aliasing `append`:
`l := (*list)[:i-1]` shares the backing array of the caller's slice, so the
subsequent `append(l, config)` overwrites entry `i-1` in place, and
`append(l, (*list)[:i]...)` then reads from the already-mutated array.  The
model keeps the backing array and the length explicit.
-/

/-- A Go slice: backing array and length (capacity is the array length). -/
structure GoSlice (α : Type) where
  arr : List α
  len : Nat
deriving DecidableEq, Repr

/-- The elements of the slice. -/
def GoSlice.toList (s : GoSlice α) : List α := s.arr.take s.len

/-- Go's one-element `append`: write in place while capacity remains,
reallocate otherwise. -/
def GoSlice.push (s : GoSlice α) (x : α) : GoSlice α :=
  if s.len < s.arr.length then { arr := s.arr.set s.len x, len := s.len + 1 }
  else { arr := s.toList ++ [x], len := s.len + 1 }

/-- Go's variadic `append(s, xs...)`: the source elements are snapshotted at
call time (memmove semantics), then written one after another. -/
def GoSlice.pushMany (s : GoSlice α) (xs : List α) : GoSlice α :=
  xs.foldl GoSlice.push s

/-- A fresh slice with capacity equal to its length, as produced by
`make([]T, n)` and by the sorted rebuild in `getPluginsList`. -/
def GoSlice.ofList (xs : List α) : GoSlice α := ⟨xs, xs.length⟩

/-- The `for i, config := range *list` loop of `insertPlugin` (lines
575-583).  At the first entry whose name is greater than the new plugin's
name the code slices `(*list)[:i-1]` - a bounds panic when `i = 0`, modelled
as `none` - then appends `config` (overwriting entry `i-1` of the shared
backing array) and appends the (mutated) first `i` entries.  When no entry
is greater, the plugin is appended at the end (line 586). -/
def insertSearch (list : GoSlice Plugin) (p : Plugin) : List Plugin → Nat → Option (GoSlice Plugin)
  | [], _ => some (list.push p)
  | config :: rest, i =>
    if strLt p.name config.name then
      if i = 0 then none
      else
        let l1 := GoSlice.push ⟨list.arr, i - 1⟩ config
        some (l1.pushMany (l1.arr.take i))
    else insertSearch list p rest (i + 1)

/-- Embedding of `insertPlugin` (part_002 lines 566-588). -/
def insertPlugin (list : GoSlice Plugin) (plugin : Option Plugin) : Option (GoSlice Plugin) :=
  match plugin with
  | none => some list
  | some p => insertSearch list p list.toList 0

/-- The plain sorted insert the specification asks for (§4.6/§9): find the
first entry whose name is greater and splice the new plugin in before it. -/
def sortedInsert (p : Plugin) : List Plugin → List Plugin
  | [] => [p]
  | q :: rest => if strLt p.name q.name then p :: q :: rest else q :: sortedInsert p rest

/-- Plugins used by the claim C2 failing input. -/
def pKeyAuth : Plugin := { name := "key-auth" }

/-- See `pKeyAuth`. -/
def pSyslog : Plugin := { name := "syslog" }

/-- The synthesized validator plugin inserted by the converter. -/
def pValidator : Plugin := { name := "request-validator" }

/-- Plugins used by the claim C4 failing input. -/
def pBasicAuth : Plugin := { name := "basic-auth" }

/-- The malformed extension of the claim C3 failing input: the body's `name`
differs from the extension slug, which `getPluginsList` rejects. -/
def badExt : ExtPlugin := { slug := "key-auth", givenName := some "keyauth" }

/-!
## Parameter schema and validator synthesis (part_002 lines 334-564)

Schema extraction (`extractSchema`) serializes OAS schemas to JSON-schema
strings; it is modelled by the extracted string itself (`""` for an absent or
empty schema), which is all `generateParameterSchema`, `generateBodySchema`
and `generateValidatorPlugin` inspect.
-/

/-- An OAS parameter as `generateParameterSchema` reads it: the fields of
`openapi3.Parameter` plus the extracted schema string. -/
structure Param where
  name : String := ""
  in_ : String := ""
  required : Bool := false
  style : String := ""
  explode : Option Bool := none
  schema : String := ""
deriving DecidableEq, Repr

/-- Embedding of `getDefaultParamStyle` (part_002 lines 47-60): the given
style when non-empty, else the per-location OAS default; an unknown location
yields the Go map's zero value `""`. -/
def getDefaultParamStyle (givenStyle paramType : String) : String :=
  if givenStyle = "" then
    if paramType = "header" then "simple"
    else if paramType = "cookie" then "form"
    else if paramType = "query" then "form"
    else if paramType = "path" then "simple"
    else ""
  else givenStyle

/-- One entry of the generated `parameter_schema` array. -/
structure ParamConf where
  explode : Bool
  in_ : String
  name : String
  required : Bool
  style : String
  schema : Option String
deriving DecidableEq, Repr

/-- The entry built for one resolved parameter (lines 352-372). -/
def paramEntry (p : Param) : ParamConf :=
  { explode := p.explode.getD false
    in_ := p.in_
    name := p.name
    required := p.required
    style := getDefaultParamStyle p.style p.in_
    schema := if p.schema ≠ "" then some p.schema else none }

/-- The parameter loop of `generateParameterSchema` (lines 349-375).  Each
parameter reference may carry a nil resolved `Value`; the code reads
`paramValue.Explode` before its `paramValue != nil` check, so a nil value is
a nil-pointer dereference, modelled as `none`. -/
def paramLoop : List (Option Param) → Option (List ParamConf)
  | [] => some []
  | none :: _ => none
  | some p :: rest => (paramLoop rest).map (fun l => paramEntry p :: l)

/-- Embedding of `generateParameterSchema` (part_002 lines 337-378).  The
outer `none` is the nil-pointer panic; `some none` is Go's nil result (no
parameters); `some (some l)` is a generated schema array. -/
def generateParameterSchema (parameters : List (Option Param)) :
    Option (Option (List ParamConf)) :=
  if parameters.isEmpty then some none
  else
    match paramLoop parameters with
    | none => none
    | some l => some (some l)

/-- An OAS operation as the validator synthesizer reads it: parameter
references (with optionally-resolved values) and the request body content,
`none` when the body reference or value or content map is absent, otherwise
the (contentType, extracted body schema) pairs. -/
structure Operation where
  parameters : List (Option Param) := []
  requestBody : Option (List (String × String)) := none
deriving DecidableEq, Repr

/-- Embedding of `generateBodySchema` (part_002 lines 445-469): the extracted
schema of the first content type containing `application/json`
(case-insensitively), else `""`.  Go iterates the content map in random
order; the model fixes the list order, which the claims do not depend on. -/
def generateBodySchema (op : Operation) : String :=
  match op.requestBody with
  | none => ""
  | some content =>
    match content.find? (fun ct => hasSub "application/json".data (ct.1.data.map Char.toLower)) with
    | some ct => ct.2
    | none => ""

/-- Sorted insertion for strings, ascending. -/
def insertStr (s : String) : List String → List String
  | [] => [s]
  | t :: rest => if strLe s t then s :: t :: rest else t :: insertStr s rest

/-- Model of `sort.Strings`, ascending insertion sort. -/
def sortStringsAsc : List String → List String
  | [] => []
  | s :: rest => insertStr s (sortStringsAsc rest)

/-- Embedding of `generateContentTypes` (part_002 lines 473-503): `none` when
the request body or its content is absent or empty, else the sorted list of
content types. -/
def generateContentTypes (op : Operation) : Option (List String) :=
  match op.requestBody with
  | none => none
  | some content =>
    if content.isEmpty then none
    else some (sortStringsAsc (content.map Prod.fst))

/-- The `config` object of a request-validator plugin, with the keys the
synthesizer reads and writes; everything else is opaque payload on the
enclosing plugin. -/
structure VConfig where
  parameter_schema : Option (List ParamConf) := none
  body_schema : Option String := none
  allowed_content_types : Option (List String) := none
  version : Option String := none
deriving DecidableEq, Repr

/-- A request-validator plugin config: `name`, `id` and the nested `config`
object (absent when the JSON has no `config` key). -/
structure VPlugin where
  name : String := "request-validator"
  id : String := ""
  config : Option VConfig := none
deriving DecidableEq, Repr

/-- The parameter-schema step (lines 526-532): when `parameter_schema` is
unset, generate it from the operation; a produced array also sets
`version = "draft4"`.  `none` propagates the nil-pointer panic of
`generateParameterSchema`. -/
def vStepParam (op : Operation) (cfg : VConfig) : Option VConfig :=
  if cfg.parameter_schema = none then
    match generateParameterSchema op.parameters with
    | none => none
    | some none => some cfg
    | some (some ps) => some { cfg with parameter_schema := some ps, version := some "draft4" }
  else some cfg

/-- The body-schema step (lines 534-554): when `body_schema` is unset,
generate it; when nothing was generated and no `parameter_schema` exists,
the plugin is dropped (`none`) unless the config explicitly carries
`allowed_content_types`, in which case the empty schema is installed so the
content-type check still fires. -/
def vStepBody (op : Operation) (cfg : VConfig) : Option VConfig :=
  if cfg.body_schema = none then
    let bs := generateBodySchema op
    if bs ≠ "" then some { cfg with body_schema := some bs, version := some "draft4" }
    else if cfg.parameter_schema = none then
      if cfg.allowed_content_types = none then none
      else some { cfg with body_schema := some "\x7b\x7d", version := some "draft4" }
    else some cfg
  else some cfg

/-- The content-types step (lines 556-561): fill `allowed_content_types`
from the operation when unset and derivable. -/
def vStepContentTypes (op : Operation) (cfg : VConfig) : VConfig :=
  if cfg.allowed_content_types = none then
    match generateContentTypes op with
    | some cts => { cfg with allowed_content_types := some cts }
    | none => cfg
  else cfg

/-- Embedding of `generateValidatorPlugin` (part_002 lines 505-564).  The
input is the extracted validator config (`none` for an empty JSON string,
line 510), the result distinguishes the nil-pointer panic (`none`), no
emitted plugin (`some none`), and an emitted plugin (`some (some _)`). -/
def generateValidatorPlugin (configJson : Option VPlugin) (op : Operation) (baseName : String) :
    Option (Option VPlugin) :=
  match configJson with
  | none => some none
  | some pc0 =>
    let pc := { pc0 with id := pluginUuid baseName pc0.name }
    let cfg := pc.config.getD {}
    match vStepParam op cfg with
    | none => none
    | some cfg1 =>
      match vStepBody op cfg1 with
      | none => some none
      | some cfg2 => some (some { pc with config := some (vStepContentTypes op cfg2) })

/-- Operation of the claim C5 counterexample: no parameters, one request-body
content type that is not JSON (so no body schema is produced). -/
def c5Op : Operation := { requestBody := some [("text/plain", "")] }

/-- Validator config of the claim C5 counterexample: present but empty. -/
def c5Pc : VPlugin := {}

/-- Validator config of the claim C5 amended witness: explicitly declared
allowed content types, nothing else. -/
def c5WitPc : VPlugin := { config := some { allowed_content_types := some ["application/xml"] } }

/-!
## Path rewriter (`Convert`, part_002 lines 965-977)

The code collects all matches of the regex pattern brace, one-or-more
non-closing-brace chars, closing brace over the original path with
`FindAllStringSubmatch` (leftmost, non-overlapping, greedy), then for each
captured variable name runs `strings.Replace(path, "{" + name + "}",
"(?<" + name + ">[^#?/]+)", 1)` on the progressively rewritten string.
Finally `route["paths"] = []string{"~" + path + "$"}`.

`findMatchesGo` is the match scan as a state machine over the characters
(the optional accumulator holds the reversed name being collected inside a
brace); `codeRewrite` is the fold of first-occurrence replacements;
`specRewrite` is the single left-to-right pass the specification describes,
replacing each placeholder occurrence exactly once, in place.
-/

/-- Split at the first closing brace: `some (a, b)` when the input is
`a ++ close :: b` with no closing brace in `a`, else `none`. -/
def splitBrace : List Char → Option (List Char × List Char)
  | [] => none
  | c :: rest =>
    if c = '}' then some ([], rest)
    else (splitBrace rest).map (fun p => (c :: p.1, p.2))

/-- The variable names of all regex matches, leftmost first.  In brace mode
(`some acc`) the reversed name collected so far is `acc`; an immediately
closed brace pair has no name (the regex requires one or more chars) and
yields no match, and an unclosed brace at the end of the string yields no
match. -/
def findMatchesGo : List Char → Option (List Char) → List (List Char)
  | [], _ => []
  | c :: rest, none =>
    if c = '{' then findMatchesGo rest (some []) else findMatchesGo rest none
  | c :: rest, some acc =>
    if c = '}' then
      if acc.isEmpty then findMatchesGo rest none
      else acc.reverse :: findMatchesGo rest none
    else findMatchesGo rest (some (c :: acc))

/-- The matches of the path-parameter regex on a path. -/
def findMatches (path : List Char) : List (List Char) := findMatchesGo path none

/-- The replacement text for a variable name: `(?<name>[^#?/]+)`. -/
def repl (name : List Char) : List Char :=
  "(?<".data ++ name ++ ">[^#?/]+)".data

/-- The placeholder text for a variable name: `{name}`. -/
def braceWrap (name : List Char) : List Char := '{' :: (name ++ ['}'])

/-- Go's `strings.Replace(s, pat, rep, 1)`: replace the first occurrence. -/
def replaceFirst : List Char → List Char → List Char → List Char
  | [], _, _ => []
  | c :: rest, pat, rep =>
    if begWith pat (c :: rest) then rep ++ (c :: rest).drop pat.length
    else c :: replaceFirst rest pat rep

/-- One loop iteration of the rewriter: replace the first occurrence of the
placeholder of `name` by its capture group. -/
def rewriteStep (p name : List Char) : List Char :=
  replaceFirst p (braceWrap name) (repl name)

/-- Embedding of the rewrite loop (lines 966-976): find all matches on the
original path, then sequentially replace first occurrences. -/
def codeRewrite (path : List Char) : List Char :=
  (findMatches path).foldl rewriteStep path

/-- The route's `paths` value (line 977): the one-element list
`["~" + rewritten + "$"]`. -/
def routePathsCode (path : List Char) : List (List Char) :=
  [('~' :: codeRewrite path) ++ ['$']]

/-- The rewrite exactly as the specification states it (§4.7, claim C8): one
single left-to-right pass, replacing each placeholder occurrence by its
capture group in place, one substitution per occurrence. -/
def specRewriteGo : List Char → Option (List Char) → List Char
  | [], none => []
  | [], some acc => '{' :: acc.reverse
  | c :: rest, none =>
    if c = '{' then specRewriteGo rest (some []) else c :: specRewriteGo rest none
  | c :: rest, some acc =>
    if c = '}' then
      if acc.isEmpty then '{' :: '}' :: specRewriteGo rest none
      else repl acc.reverse ++ specRewriteGo rest none
    else specRewriteGo rest (some (c :: acc))

/-- The specification's one-pass rewrite of a path. -/
def specRewrite (path : List Char) : List Char := specRewriteGo path none

/-- A prefix is inert for the rewriter when every opening brace in it is
immediately followed by a closing brace and it does not end in an opening
brace: no placeholder occurrence can start inside it. -/
def clean : List Char → Bool
  | [] => true
  | [c] => decide (c ≠ '{')
  | c :: d :: rest => (decide (c ≠ '{') || decide (d = '}')) && clean (d :: rest)

/-- The pathological path of the claim C8 counterexample,
`{a{b}}{b>[^#?/]+)}`: its first variable name `a{b` contains an opening
brace, so the first replacement text `(?<a{b>[^#?/]+)` together with the
following `}` forms a new occurrence of the second placeholder
`{b>[^#?/]+)}`, which the second `strings.Replace` call then rewrites
instead of the real second placeholder. -/
def pathoPath : List Char := "\x7ba\x7bb\x7d\x7d\x7bb>[^#?/]+)\x7d".data

/-- The ordinary path `/pets/{id}` used as the claim C8 witness. -/
def petsPath : List Char := "/pets/\x7bid\x7d".data

/-!
## Theorems
-/

/-- A URL whose Go `Host` string is empty has an empty hostname and no port. -/
theorem hostStr_empty {u : URL} (h : u.hostStr = "") : u.hostname = "" ∧ u.port = none := by
  obtain ⟨s, hn, p, pa⟩ := u
  cases p with
  | none => exact ⟨h, rfl⟩
  | some q =>
    exfalso
    have hlen := congrArg String.length h
    have hc : (":" : String).length = 1 := rfl
    simp [URL.hostStr, String.length_append, hc] at hlen

set_option maxHeartbeats 1000000 in
/-- Claim C6: `setServerDefaults` fills, per URI, `localhost` for an absent
host; an absent scheme becomes http for port 80, https for port 443, and the
supplied default scheme otherwise; an absent port becomes 80 for scheme http
and 443 for scheme https.  Proven as an equality between the embedding of the
Go code and the independent statement of the rules. -/
theorem c6_confirmed :
    (∀ d u, setServerDefaults1 d u = specServerDefaults1 d u) ∧
    (∀ d targets, setServerDefaults d targets = targets.map (specServerDefaults1 d)) := by
  have main : ∀ d u, setServerDefaults1 d u = specServerDefaults1 d u := by
    intro d u
    obtain ⟨s, hn, p, pa⟩ := u
    cases p with
    | none =>
      by_cases hhn : hn = "" <;> by_cases hs : s = "" <;>
        simp_all [setServerDefaults1, specServerDefaults1, URL.hostStr, URL.portStr] <;>
        split_ifs <;> simp_all
    | some q =>
      have hne : hn ++ ":" ++ q ≠ "" := by
        intro h
        have hlen := congrArg String.length h
        have hc : (":" : String).length = 1 := rfl
        simp [String.length_append, hc] at hlen
      by_cases hs : s = "" <;> by_cases hq : q = "" <;> by_cases hq80 : q = "80" <;>
          by_cases hq443 : q = "443" <;>
        simp_all [setServerDefaults1, specServerDefaults1, URL.hostStr, URL.portStr] <;>
        split_ifs <;> simp_all
  exact ⟨main, fun d targets => by
    simp only [setServerDefaults, List.map_inj_left]
    exact fun u _ => main d u⟩

/-- Claim C7, counterexample: for a first target with scheme `grpc` and no
port, the code emits port 443, while the claim (443 only for https, else 80)
demands port 80. -/
theorem c7_counterexample :
    serviceFieldsFromTarget c7Target ≠
      { protocol := c7Target.scheme, path := c7Target.path,
        port := if c7Target.portStr ≠ "" then goParseInt16 c7Target.portStr
                else if c7Target.scheme = "https" then 443 else 80 } := by
  decide

/-- Claim C7 as amended: `CreateKongService` takes `service.protocol` and
`service.path` from the first resolved target, and `service.port` is the
parsed explicit port when present, else 80 when the scheme is exactly http,
else 443 (for https and for every other scheme). -/
theorem c7_amended (t : URL) :
    serviceFieldsFromTarget t =
      { protocol := t.scheme, path := t.path,
        port := if t.portStr ≠ "" then goParseInt16 t.portStr
                else if t.scheme = "http" then 80 else 443 } := by
  simp only [serviceFieldsFromTarget, servicePort]
  split_ifs <;> simp_all

/-- Claim C9: `CreateKongService` parses an explicit port with
`strconv.ParseInt(port, 10, 16)` and discards the error, so every explicit
port between 32768 and 65535 is clamped to the int16 maximum and the emitted
service port is 32767, not the port from the server URL. -/
theorem c9_confirmed (scheme host path p : String)
    (hd : isDigits p = true) (hlo : 32768 ≤ decVal p) (hhi : decVal p ≤ 65535) :
    servicePort { scheme := scheme, hostname := host, port := some p, path := path } = 32767 ∧
    ((decVal p : Int) ≠ 32767) := by
  have hpne : p ≠ "" := by
    intro h
    subst h
    simp [isDigits] at hd
  constructor
  · simp only [servicePort, URL.portStr, Option.getD, goParseInt16, hd, if_true]
    have : ¬ decVal p ≤ 32767 := by omega
    simp [hpne, this]
  · have : (32768 : Int) ≤ (decVal p : Int) := by exact_mod_cast hlo
    omega

/-- Witness for claim C9 at the concrete port string `"40000"`. -/
theorem c9_confirmed_witness :
    servicePort { scheme := "https", hostname := "h", port := some "40000", path := "/" } = 32767 ∧
    ((decVal "40000" : Int) ≠ 32767) :=
  c9_confirmed "https" "h" "/" "40000" (by decide) (by decide) (by decide)

/-- The factory produces an upstream exactly when upstream-defaults are
present or the servers block has at least two entries. -/
theorem factoryMakesUpstream_eq (up : Option String) (servers : List String) :
    factoryMakesUpstream up servers = (up.isSome || decide (2 ≤ servers.length)) := by
  cases up <;> rcases servers with _ | ⟨a, _ | ⟨b, t⟩⟩ <;>
    simp [factoryMakesUpstream, numTargets]

/-- Claim C1, counterexample: when the document declares upstream-defaults
and one server, and a path declares only a one-entry servers block, a
path-scope upstream is emitted even though the path did not declare
`x-kong-upstream-defaults` and its effective servers block has fewer than
two entries.  This refutes the claimed iff. -/
theorem c1_counterexample :
    (childScopeStep c1Parent c1Loc).upstreamEmitted = true ∧
    c1Loc.upstreamDefaults.isSome = false ∧
    (childScopeStep c1Parent c1Loc).effServers.length < 2 := by
  decide

/-- Claim C1 as amended: at the document scope an upstream is emitted iff
upstream-defaults were declared or the servers block has at least two
entries; at a path or operation scope an upstream is emitted iff the scope
locally declared upstream-defaults or a non-empty servers block, and the
effective context makes the factory produce one (effective upstream-defaults
present, possibly inherited, or effective servers with at least two
entries). -/
theorem c1_amended :
    (∀ up servers, docScopeEmitsUpstream up servers =
        (up.isSome || decide (2 ≤ servers.length))) ∧
    (∀ parent loc, (childScopeStep parent loc).upstreamEmitted =
        ((loc.upstreamDefaults.isSome || !loc.servers.isEmpty) &&
         ((childScopeStep parent loc).effUpstreamDefaults.isSome ||
          decide (2 ≤ (childScopeStep parent loc).effServers.length)))) := by
  constructor
  · intro up servers
    exact factoryMakesUpstream_eq up servers
  · intro parent loc
    obtain ⟨sd, ud, sv⟩ := loc
    cases sd <;> cases ud <;> cases sv <;>
      simp [childScopeStep, factoryMakesUpstream_eq]

/-- Claim C2, code bug: on the sorted list `[key-auth, syslog]` the insertion
of the synthesized `request-validator` plugin must, per the claim, produce
`[key-auth, request-validator, syslog]` (the plain sorted insert), but the
aliasing slice arithmetic of `insertPlugin` returns `[syslog, syslog]`,
losing both the new plugin and `key-auth`; and inserting before position 0
(list `[syslog]`, new plugin `key-auth`) hits the `(*list)[:i-1]` bounds
panic, modelled as `none`. -/
theorem c2_code_bug :
    (insertPlugin (GoSlice.ofList [pKeyAuth, pSyslog]) (some pValidator)).map GoSlice.toList =
      some [pSyslog, pSyslog] ∧
    sortedInsert pValidator [pKeyAuth, pSyslog] = [pKeyAuth, pValidator, pSyslog] ∧
    insertPlugin (GoSlice.ofList [pSyslog]) (some pKeyAuth) = none := by
  decide

/-- Claim C3, code bug: with an operation-level service
(`newOperationService`) and a malformed document-level plugin extension whose
body `name` contradicts its slug, the document-level `getPluginsList` call
fails, but `Convert` discards that error (`operationPluginList, _ = ...`,
part_002 lines 937-938) and returns an empty plugin list instead of
propagating the error. -/
theorem c3_code_bug :
    getPluginsList [badExt] none "svc_get" ["t"] =
      .error "extension 'x-kong-plugin-key-auth' specifies a different name than the config; 'key-auth'" ∧
    operationPluginsCode true false [badExt] [] [] none "svc_get" ["t"] = .ok [] :=
  ⟨rfl, rfl⟩

/-- Claim C4, code bug: the list `[basic-auth, syslog]` is strictly ascending
by name, yet after `insertPlugin` adds the synthesized `request-validator`
plugin the result is `[syslog, syslog]`, which is neither strictly ascending
nor duplicate-free. -/
theorem c4_code_bug :
    List.Pairwise (fun a b : Plugin => strLt a.name b.name = true) [pBasicAuth, pSyslog] ∧
    (insertPlugin (GoSlice.ofList [pBasicAuth, pSyslog]) (some pValidator)).map
        (fun s => s.toList.map Plugin.name) = some ["syslog", "syslog"] ∧
    ¬ List.Pairwise (fun a b : String => strLt a b = true) ["syslog", "syslog"] ∧
    ¬ List.Nodup ["syslog", "syslog"] := by
  refine ⟨?_, by decide, ?_, by decide⟩
  · decide
  · decide

/-- The parameter loop yields `none` as soon as a nil resolved value is hit. -/
theorem paramLoop_of_none {ps : List (Option Param)} (h : none ∈ ps) : paramLoop ps = none := by
  induction ps with
  | nil => cases h
  | cons r rest ih =>
    cases r with
    | none => rfl
    | some p =>
      have hr : none ∈ rest := by
        rcases List.mem_cons.mp h with h' | h'
        · exact absurd h' (by simp)
        · exact h'
      simp [paramLoop, ih hr]

/-- On a list of resolved parameters the loop maps `paramEntry` in order. -/
theorem paramLoop_map (qs : List Param) :
    paramLoop (qs.map some) = some (qs.map paramEntry) := by
  induction qs with
  | nil => rfl
  | cons q rest ih => simp [paramLoop, ih]

/-- Claim C10: `generateParameterSchema` reads `paramValue.Explode` before
the nil check of `paramValue`, so any parameter reference with a nil resolved
value is a nil-pointer dereference (modelled as `none`); when every reference
is resolved, the function returns exactly one entry per OAS parameter, in
order, carrying explode (default false), in, name, required, and style with
the per-location default (header and path simple, cookie and query form)
when none is given. -/
theorem c10_confirmed :
    (∀ qs : List Param,
      generateParameterSchema (qs.map some) =
        some (if qs.isEmpty then none
          else some (qs.map (fun q =>
            ({ explode := q.explode.getD false
               in_ := q.in_
               name := q.name
               required := q.required
               style := if q.style = "" then
                   (if q.in_ = "header" then "simple"
                    else if q.in_ = "cookie" then "form"
                    else if q.in_ = "query" then "form"
                    else if q.in_ = "path" then "simple" else "")
                 else q.style
               schema := if q.schema ≠ "" then some q.schema else none } : ParamConf))))) ∧
    (∀ ps : List (Option Param), none ∈ ps → generateParameterSchema ps = none) := by
  constructor
  · intro qs
    simp only [generateParameterSchema, paramLoop_map]
    cases qs with
    | nil => rfl
    | cons q rest => simp [paramEntry, getDefaultParamStyle]
  · intro ps h
    have hne : ¬ ps.isEmpty := by
      cases ps with
      | nil => cases h
      | cons r rest => simp
    simp [generateParameterSchema, hne, paramLoop_of_none h]

/-- Witness for the hypothesis-bearing part of claim C10: a parameter list
with one resolved and one unresolved reference dereferences nil. -/
theorem c10_confirmed_witness :
    generateParameterSchema [some { name := "q" }, none] = none :=
  c10_confirmed.2 [some { name := "q" }, none] (by decide)

/-- Claim C5, counterexample: an operation with no parameters and a
`text/plain` request body produces neither a parameter schema nor a body
schema, and its content types exist implicitly (`generateContentTypes`
returns them), yet `generateValidatorPlugin` emits no plugin at all, because
line 543 consults only the explicit `allowed_content_types` of the config
before dropping the plugin. -/
theorem c5_counterexample :
    generateValidatorPlugin (some c5Pc) c5Op "base" = some none ∧
    generateContentTypes c5Op = some ["text/plain"] ∧
    generateParameterSchema c5Op.parameters = some none ∧
    generateBodySchema c5Op = "" :=
  ⟨rfl, rfl, rfl, rfl⟩

/-- Claim C5 as amended: at operation scope, when the synthesis produced
neither a parameter schema (none generated, none pre-set) nor a body schema,
the emitted plugin carries `body_schema = "{}"` and `version = "draft4"`
exactly when the validator config explicitly carries
`allowed_content_types`; otherwise no plugin is emitted, even when the
operation's request body supplies content types implicitly. -/
theorem c5_amended (pc : VPlugin) (op : Operation) (baseName : String)
    (h1 : (pc.config.getD {}).parameter_schema = none)
    (h2 : (pc.config.getD {}).body_schema = none)
    (h3 : generateParameterSchema op.parameters = some none)
    (h4 : generateBodySchema op = "") :
    ((pc.config.getD {}).allowed_content_types = none →
      generateValidatorPlugin (some pc) op baseName = some none) ∧
    (∀ cts, (pc.config.getD {}).allowed_content_types = some cts →
      generateValidatorPlugin (some pc) op baseName =
        some (some { pc with
          id := pluginUuid baseName pc.name
          config := some { (pc.config.getD {}) with
            body_schema := some "\x7b\x7d"
            version := some "draft4" } })) := by
  constructor
  · intro hact
    simp [generateValidatorPlugin, vStepParam, vStepBody, h1, h2, h3, h4, hact]
  · intro cts hact
    simp [generateValidatorPlugin, vStepParam, vStepBody, vStepContentTypes,
      h1, h2, h3, h4, hact]

/-- Witness for claim C5 as amended: a validator config that explicitly
allows `application/xml` gets the empty body schema and draft4 version. -/
theorem c5_amended_witness :
    generateValidatorPlugin (some c5WitPc) c5Op "base" =
      some (some { c5WitPc with
        id := pluginUuid "base" c5WitPc.name
        config := some { (c5WitPc.config.getD {}) with
          body_schema := some "\x7b\x7d"
          version := some "draft4" } }) :=
  (c5_amended c5WitPc c5Op "base" rfl rfl rfl rfl).2 ["application/xml"] rfl

/-!
## Path rewriter lemmas (claim C8)
-/

/-- A list is a `begWith`-prefix of itself followed by anything. -/
theorem begWith_self_append [DecidableEq α] (l t : List α) : begWith l (l ++ t) = true := by
  induction l with
  | nil => rfl
  | cons a as ih => simp [begWith, ih]

/-- Soundness of `splitBrace`: a successful split decomposes the input at its
first closing brace. -/
theorem splitBrace_eq : ∀ {s nm after : List Char}, splitBrace s = some (nm, after) →
    s = nm ++ '}' :: after ∧ '}' ∉ nm := by
  intro s
  induction s with
  | nil => intro nm after h; simp [splitBrace] at h
  | cons c t ih =>
    intro nm after h
    by_cases hc : c = '}'
    · subst hc
      simp [splitBrace] at h
      obtain ⟨h1, h2⟩ := h
      subst h1; subst h2
      simp
    · simp only [splitBrace, if_neg hc] at h
      cases hsb : splitBrace t with
      | none => rw [hsb] at h; simp at h
      | some p =>
        obtain ⟨nm', after'⟩ := p
        rw [hsb] at h
        simp at h
        obtain ⟨hnm, haf⟩ := h
        obtain ⟨ht, hb⟩ := ih hsb
        subst hnm; subst haf
        constructor
        · simp [ht]
        · simp [List.mem_cons, hb]
          exact fun e => hc e.symm

/-- The match scan in brace mode, expressed through `splitBrace`. -/
theorem findMatchesGo_brace (rest : List Char) : ∀ acc,
    findMatchesGo rest (some acc) =
      (match splitBrace rest with
       | none => []
       | some (nm, after) =>
         if acc.reverse ++ nm = [] then findMatchesGo after none
         else (acc.reverse ++ nm) :: findMatchesGo after none) := by
  induction rest with
  | nil => intro acc; rfl
  | cons c t ih =>
    intro acc
    by_cases hc : c = '}'
    · subst hc
      by_cases ha : acc = []
      · subst ha; simp [findMatchesGo, splitBrace]
      · simp [findMatchesGo, splitBrace, ha, List.isEmpty_iff]
    · simp only [findMatchesGo, splitBrace, if_neg hc]
      rw [ih (c :: acc)]
      cases hsb : splitBrace t with
      | none => simp [hsb]
      | some p =>
        obtain ⟨nm, after⟩ := p
        have h1 : (c :: acc).reverse ++ nm = acc.reverse ++ (c :: nm) := by simp
        have h2 : acc.reverse ++ (c :: nm) ≠ [] := by simp
        simp [hsb, h1, h2]

/-- The one-pass rewriter in brace mode, expressed through `splitBrace`. -/
theorem specRewriteGo_brace (rest : List Char) : ∀ acc,
    specRewriteGo rest (some acc) =
      (match splitBrace rest with
       | none => '{' :: (acc.reverse ++ rest)
       | some (nm, after) =>
         if acc.reverse ++ nm = [] then '{' :: '}' :: specRewriteGo after none
         else repl (acc.reverse ++ nm) ++ specRewriteGo after none) := by
  induction rest with
  | nil => intro acc; simp [specRewriteGo, splitBrace]
  | cons c t ih =>
    intro acc
    by_cases hc : c = '}'
    · subst hc
      by_cases ha : acc = []
      · subst ha; simp [specRewriteGo, splitBrace]
      · simp [specRewriteGo, splitBrace, ha, List.isEmpty_iff]
    · simp only [specRewriteGo, splitBrace, if_neg hc]
      rw [ih (c :: acc)]
      cases hsb : splitBrace t with
      | none => simp [hsb]
      | some p =>
        obtain ⟨nm, after⟩ := p
        have h1 : (c :: acc).reverse ++ nm = acc.reverse ++ (c :: nm) := by simp
        have h2 : acc.reverse ++ (c :: nm) ≠ [] := by simp
        simp [hsb, h1, h2]

/-- `clean` is hereditary on tails. -/
theorem clean_cons {c : Char} {t : List Char} (h : clean (c :: t) = true) : clean t = true := by
  cases t with
  | nil => rfl
  | cons d t' =>
    simp [clean] at h
    exact h.2

/-- Concatenation preserves `clean`. -/
theorem clean_append : ∀ {P Q : List Char}, clean P = true → clean Q = true →
    clean (P ++ Q) = true := by
  intro P
  induction P with
  | nil => intro Q _ hQ; simpa using hQ
  | cons c t ih =>
    intro Q hP hQ
    cases t with
    | nil =>
      have hc : c ≠ '{' := by simpa [clean] using hP
      cases Q with
      | nil => simpa using hP
      | cons d Q' => simpa [clean, hc] using hQ
    | cons d t' =>
      have h1 : (c ≠ '{' ∨ d = '}') := by
        simp [clean] at hP
        exact hP.1
      have h2 : clean ((d :: t') ++ Q) = true := ih (clean_cons hP) hQ
      simp only [List.cons_append] at h2 ⊢
      simp [clean, h2]
      rcases h1 with h | h
      · exact Or.inl h
      · exact Or.inr h

/-- A brace-free list is `clean`. -/
theorem clean_of_no_brace : ∀ {Q : List Char}, '{' ∉ Q → clean Q = true := by
  intro Q
  induction Q with
  | nil => intro _; rfl
  | cons c t ih =>
    intro h
    simp only [List.mem_cons, not_or] at h
    obtain ⟨h1, h2⟩ := h
    have hc : c ≠ '{' := fun e => h1 e.symm
    cases t with
    | nil => simpa [clean] using hc
    | cons d t' =>
      have := ih h2
      simp [clean, hc, this]

/-- A brace-free variable name has a brace-free replacement text. -/
theorem repl_no_brace {nm : List Char} (h : '{' ∉ nm) : '{' ∉ repl nm := by
  intro hmem
  rw [repl] at hmem
  rcases List.mem_append.mp hmem with h1 | h2
  · rcases List.mem_append.mp h1 with h3 | h4
    · exact absurd h3 (by decide)
    · exact h h4
  · exact absurd h2 (by decide)

/-- `replaceFirst` at an occurrence sitting at the head of the string. -/
theorem replaceFirst_of_begWith {s pat rep : List Char} (hne : pat ≠ [])
    (h : begWith pat s = true) :
    replaceFirst s pat rep = rep ++ s.drop pat.length := by
  cases s with
  | nil =>
    cases pat with
    | nil => exact absurd rfl hne
    | cons p pt => simp [begWith] at h
  | cons c rest => simp [replaceFirst, h]

/-- Replacing the placeholder at the very front of the remaining input. -/
theorem replaceFirst_head (nm after rep : List Char) :
    replaceFirst (braceWrap nm ++ after) (braceWrap nm) rep = rep ++ after := by
  rw [replaceFirst_of_begWith (by simp [braceWrap]) (begWith_self_append _ _)]
  simp

/-- No occurrence of a placeholder with a non-empty, brace-free name can
start inside a `clean` prefix, so `replaceFirst` passes over it. -/
theorem replaceFirst_append (nm : List Char) (hnm : nm ≠ []) (hbr : '}' ∉ nm)
    (rep : List Char) : ∀ P X, clean P = true →
    replaceFirst (P ++ X) (braceWrap nm) rep = P ++ replaceFirst X (braceWrap nm) rep := by
  intro P
  induction P with
  | nil => intro X _; simp
  | cons c P' ih =>
    intro X hP
    obtain ⟨e, nm', hnm'⟩ := List.exists_cons_of_ne_nil hnm
    have he : e ≠ '}' := by
      intro hcon
      apply hbr
      rw [hnm', hcon]
      exact List.mem_cons_self _ _
    have hbw : begWith (braceWrap nm) (c :: (P' ++ X)) = false := by
      by_cases hc : c = '{'
      · subst hc
        cases P' with
        | nil => simp [clean] at hP
        | cons d P'' =>
          have hd : d = '}' := by
            simp [clean] at hP
            exact hP.1
          subst hd
          simp [braceWrap, hnm', begWith, he]
      · simp [braceWrap, begWith]
        intro hcon
        exact absurd hcon.symm hc
    have hP' : clean P' = true := clean_cons hP
    calc replaceFirst ((c :: P') ++ X) (braceWrap nm) rep
        = c :: replaceFirst (P' ++ X) (braceWrap nm) rep := by
          simp [replaceFirst, hbw]
      _ = c :: (P' ++ replaceFirst X (braceWrap nm) rep) := by rw [ih X hP']
      _ = (c :: P') ++ replaceFirst X (braceWrap nm) rep := rfl

/-- Main rewriter lemma: when no variable name contains an opening brace,
the fold of first-occurrence replacements over the matches equals the
specification's single left-to-right pass, relative to any already-rewritten
`clean` prefix. -/
theorem rewriteMain : ∀ (n : Nat) (s : List Char), s.length ≤ n →
    (∀ m ∈ findMatches s, '{' ∉ m) → ∀ P, clean P = true →
    List.foldl rewriteStep (P ++ s) (findMatches s) = P ++ specRewrite s := by
  intro n
  induction n with
  | zero =>
    intro s hs _ P _
    have : s = [] := List.length_eq_zero.mp (Nat.le_zero.mp hs)
    subst this
    rfl
  | succ n ih =>
    intro s hs hm P hP
    cases s with
    | nil => rfl
    | cons c rest =>
      by_cases hc : c = '{'
      · subst hc
        have hfm : findMatches ('{' :: rest) = findMatchesGo rest (some []) := by
          simp [findMatches, findMatchesGo]
        have hsr : specRewrite ('{' :: rest) = specRewriteGo rest (some []) := by
          simp [specRewrite, specRewriteGo]
        cases hsb : splitBrace rest with
        | none =>
          have h1 : findMatchesGo rest (some []) = [] := by
            rw [findMatchesGo_brace rest []]; simp [hsb]
          have h2 : specRewriteGo rest (some []) = '{' :: rest := by
            rw [specRewriteGo_brace rest []]; simp [hsb]
          rw [hfm, h1, hsr, h2]
          rfl
        | some p =>
          obtain ⟨nm, after⟩ := p
          obtain ⟨hrest, hbr⟩ := splitBrace_eq hsb
          by_cases hnm : nm = []
          · subst hnm
            simp only [List.nil_append] at hrest
            have h1 : findMatchesGo rest (some []) = findMatches after := by
              rw [findMatchesGo_brace rest []]; simp [hsb, findMatches]
            have h2 : specRewriteGo rest (some []) = '{' :: '}' :: specRewrite after := by
              rw [specRewriteGo_brace rest []]; simp [hsb, specRewrite]
            have hlen : after.length ≤ n := by
              subst hrest
              simp at hs
              omega
            have hm' : ∀ m ∈ findMatches after, '{' ∉ m := by
              intro m hmem
              apply hm
              rw [hfm, h1]
              exact hmem
            have hPc : clean (P ++ ['{', '}']) = true :=
              clean_append hP (by decide)
            have hsplit : P ++ '{' :: rest = (P ++ ['{', '}']) ++ after := by
              subst hrest; simp
            rw [hfm, h1, hsr, h2, hsplit, ih after hlen hm' (P ++ ['{', '}']) hPc]
            simp
          · have h1 : findMatchesGo rest (some []) = nm :: findMatches after := by
              rw [findMatchesGo_brace rest []]; simp [hsb, hnm, findMatches]
            have h2 : specRewriteGo rest (some []) = repl nm ++ specRewrite after := by
              rw [specRewriteGo_brace rest []]; simp [hsb, hnm, specRewrite]
            have hmb : '{' ∉ nm := by
              apply hm
              rw [hfm, h1]
              exact List.mem_cons_self _ _
            have hm' : ∀ m ∈ findMatches after, '{' ∉ m := by
              intro m hmem
              apply hm
              rw [hfm, h1]
              exact List.mem_cons_of_mem _ hmem
            have hlen : after.length ≤ n := by
              subst hrest
              simp [List.length_append] at hs
              omega
            have hsplit : P ++ '{' :: rest = P ++ (braceWrap nm ++ after) := by
              subst hrest; simp [braceWrap]
            have hstep : rewriteStep (P ++ (braceWrap nm ++ after)) nm =
                (P ++ repl nm) ++ after := by
              rw [rewriteStep, replaceFirst_append nm hnm hbr (repl nm) P _ hP,
                replaceFirst_head]
              simp
            have hPr : clean (P ++ repl nm) = true :=
              clean_append hP (clean_of_no_brace (repl_no_brace hmb))
            rw [hfm, h1, hsr, h2]
            simp only [List.foldl_cons]
            rw [hsplit, hstep, ih after hlen hm' (P ++ repl nm) hPr]
            simp
      · have hfm : findMatches (c :: rest) = findMatches rest := by
          simp [findMatches, findMatchesGo, hc]
        have hsr : specRewrite (c :: rest) = c :: specRewrite rest := by
          simp [specRewrite, specRewriteGo, hc]
        have hlen : rest.length ≤ n := by
          simp at hs
          omega
        have hm' : ∀ m ∈ findMatches rest, '{' ∉ m := by
          intro m hmem
          apply hm
          rw [hfm]
          exact hmem
        have hPc : clean (P ++ [c]) = true :=
          clean_append hP (by simp [clean, hc])
        have hsplit : P ++ c :: rest = (P ++ [c]) ++ rest := by simp
        rw [hfm, hsr, hsplit, ih rest hlen hm' (P ++ [c]) hPc]
        simp

/-- Claim C8, counterexample: on the path whose first variable name contains
an opening brace, `{a{b}}{b>[^#?/]+)}`, the code's second replacement matches
inside the first replacement's text, so the emitted `paths[0]` differs from
the left-to-right one-substitution-per-occurrence rewrite the claim states. -/
theorem c8_counterexample :
    routePathsCode pathoPath ≠ [('~' :: specRewrite pathoPath) ++ ['$']] := by
  decide

/-- Claim C8 as amended: for every path in which no variable name contains an
opening brace, each placeholder occurrence is replaced left-to-right by its
capture group, one substitution per occurrence with the unmodified name, and
the route's `paths` is the one-element list `["~" + rewritten + "$"]`; in
particular, for a path with no placeholders, `paths[0] = "~" + path + "$"`. -/
theorem c8_amended (path : List Char) (h : ∀ m ∈ findMatches path, '{' ∉ m) :
    routePathsCode path = [('~' :: specRewrite path) ++ ['$']] ∧
    (findMatches path = [] → routePathsCode path = [('~' :: path) ++ ['$']]) := by
  have hmain := rewriteMain path.length path le_rfl h [] rfl
  have hcode : codeRewrite path = specRewrite path := by
    simpa [codeRewrite, findMatches] using hmain
  constructor
  · simp [routePathsCode, hcode]
  · intro h0
    simp [routePathsCode, codeRewrite, h0]

/-- Witness for claim C8 as amended at the ordinary path `/pets/{id}`. -/
theorem c8_amended_witness :
    routePathsCode petsPath = [('~' :: specRewrite petsPath) ++ ['$']] :=
  (c8_amended petsPath (by decide)).1

end Fw



